import Mathlib

/-!
Verification of the BlendingToolKit orchestration layer.

This file gives a shallow embedding, in Lean 4, of the pure computational
content of `btk/utils.py` and `btk/get_input_catalog.py`, together with
theorems settling the specification claims about them.

Conventions of the embedding:
* numpy float arithmetic is modelled over `ℚ` (all the quantities involved
  are ratios and products of catalog values, so no transcendental function
  is needed once comparisons against `np.hypot` are phrased on squares);
* astropy tables are modelled as lists of structure values, one structure
  field per column the code reads or writes;
* calls into `np.random` are modelled by passing the drawn values in as
  explicit arguments, constrained by hypotheses to the range the
  corresponding numpy routine can actually return;
* file reads are modelled by oracle functions from file names to tables.
-/

/-! ### Detection efficiency matrix (`btk/utils.py`, `get_detection_eff_matrix`)

A row of the detection summary table carries the number of true objects of a
blend in column 0 and the number of detected objects in column 1 (the code
only reads `summary_table[:, 0]` and `summary_table[:, 1]`, so the remaining
columns of the `[N, 5]` summary are omitted from the model). -/

abbrev SummaryRow := Nat × Nat

/-- Number of summary rows whose true-object count (column 0) equals `i`;
this is `len(q_true)` for `np.where(summary_table[:, 0] == i)`. -/
def countTrue (t : List SummaryRow) (i : Nat) : Nat :=
  (t.filter fun r => r.1 == i).length

/-- Number of summary rows with true count `i` and detected count `j`;
this is `len(q_det)` for `np.where(summary_table[q_true, 1] == j)`. -/
def countTrueDet (t : List SummaryRow) (i j : Nat) : Nat :=
  (t.filter fun r => r.1 == i && r.2 == j).length

/-- Number of summary rows with true count `i` whose detected count lies on
the matrix, i.e. is at most `num + 1`. -/
def countTrueDetLe (t : List SummaryRow) (num i : Nat) : Nat :=
  (t.filter fun r => r.1 == i && decide (r.2 < num + 2)).length

/-- Entry of `eff_matrix` before normalization: the loop body writes
`len(q_det)` at `[j, i]` only when `len(q_true) > 0`, otherwise the zero
from `np.zeros` survives. -/
def rawEff (t : List SummaryRow) (i j : Nat) : ℚ :=
  if 0 < countTrue t i then (countTrueDet t i j : ℚ) else 0

/-- Column sum `np.sum(eff_matrix, axis=0)` of the unnormalized matrix. -/
def colSum (t : List SummaryRow) (num i : Nat) : ℚ :=
  ∑ j ∈ Finset.range (num + 2), rawEff t i j

/-- The divisor used for column `i`: `norm[norm == 0.] = 1` replaces a zero
column sum by one before dividing. -/
def colNorm (t : List SummaryRow) (num i : Nat) : ℚ :=
  if colSum t num i = 0 then 1 else colSum t num i

/-- Normalized matrix entry `eff_matrix[j, i]` after
`eff_matrix = eff_matrix / norm[np.newaxis, :] * 100.`. -/
def effEntry (t : List SummaryRow) (num j i : Nat) : ℚ :=
  rawEff t i j / colNorm t num i * 100

/-- The detection efficiency matrix, as the list of its `num + 2` rows of
`num + 1` entries each (row index `j` is the detected count, column index
`i` the true count). -/
def get_detection_eff_matrix (t : List SummaryRow) (num : Nat) : List (List ℚ) :=
  (List.range (num + 2)).map fun j =>
    (List.range (num + 1)).map fun i => effEntry t num j i

/-! ### Selection function (`btk/utils.py`, `basic_selection_function`) -/

/-- One row of a CatSim-like galaxy catalog, restricted to the columns that
`basic_selection_function`, `basic_sampling_function` and
`group_sampling_function` read or write. -/
structure CatRow where
  galtileid : Nat
  ra : ℚ
  dec : ℚ
  i_ab : ℚ
  a_d : ℚ
  a_b : ℚ
  fluxnorm_bulge : ℚ
  fluxnorm_disk : ℚ
  deriving DecidableEq, Repr, Inhabited

/-- Bulge flux fraction `f = fluxnorm_bulge / (fluxnorm_disk + fluxnorm_bulge)`.
Division by zero yields the junk value `0` in `ℚ` where numpy would produce
`nan`; every claim below is insensitive to this corner. -/
def bulge_frac (r : CatRow) : ℚ :=
  r.fluxnorm_bulge / (r.fluxnorm_disk + r.fluxnorm_bulge)

/-- Square of the second-moment size
`r_sec = np.hypot(a_d*(1-f)**0.5*4.66, a_b*f**0.5*1.46)`.  Since
`np.hypot(x, y) ** 2 = x^2 + y^2` and `r_sec` is nonnegative, the cut
`r_sec <= 4` is equivalent to `r_sec_sq <= 16`, which keeps the embedding
inside `ℚ`. -/
def r_sec_sq (r : CatRow) : ℚ :=
  r.a_d ^ 2 * (1 - bulge_frac r) * (466 / 100) ^ 2
    + r.a_b ^ 2 * bulge_frac r * (146 / 100) ^ 2

/-- Row predicate of `np.where((r_sec <= 4) & (catalog['i_ab'] <= 27))`. -/
def selection_keep (r : CatRow) : Bool :=
  decide (r_sec_sq r ≤ 16) && decide (r.i_ab ≤ 27)

/-- Embedding of `basic_selection_function`: `catalog[q]` keeps, in order,
exactly the rows satisfying the cut. -/
def basic_selection_function (catalog : List CatRow) : List CatRow :=
  catalog.filter selection_keep

/-! ### Basic sampling function (`btk/utils.py`, `basic_sampling_function`)

Randomness is passed in explicitly: `picks.length` is the draw of
`np.random.randint(0, Args.max_number)` (so it satisfies
`picks.length < max_number`), `deep` records whether `np.random.random() >= 0.9`,
`bright_pick` and `picks` are the index draws of the two `np.random.choice`
calls, and `dx`, `dy` are the center shifts produced by
`btk.create_blend_generator.get_random_center_shift` (a function outside the
repository snapshot, so its output is treated as an oracle of the right
length). -/

/-- Arguments of the simulation relevant to the sampling functions. -/
structure SimArgs where
  max_number : Nat
  stamp_size : ℚ
  pixel_scale : ℚ
  deriving Repr

/-- Square of `a = np.hypot(catalog['a_d'], catalog['a_b'])`. -/
def a_sq (r : CatRow) : ℚ := r.a_d ^ 2 + r.a_b ^ 2

/-- Shape condition `cond = (a <= 2) & (a > 0.2)`, phrased on `a ** 2`
(`0.2 ** 2 = 1/25`). -/
def basic_shape_cond (r : CatRow) : Bool :=
  decide (a_sq r ≤ 4) && decide (1 / 25 < a_sq r)

/-- Rows eligible for the guaranteed bright pick:
`np.where(cond & (catalog['i_ab'] <= 24))`. -/
def q_bright (catalog : List CatRow) : List CatRow :=
  catalog.filter fun r => basic_shape_cond r && decide (r.i_ab ≤ 24)

/-- Rows eligible for the remaining picks: `i_ab < 28` on the 10% deep
branch (`np.random.random() >= 0.9`), `i_ab <= 25.3` otherwise. -/
def q_sample (catalog : List CatRow) (deep : Bool) : List CatRow :=
  catalog.filter fun r =>
    basic_shape_cond r &&
      (if deep then decide (r.i_ab < 28) else decide (r.i_ab ≤ 253 / 10))

/-- Overwrite the `ra` and `dec` columns of a row; the code zeroes both and
then adds the random center shift, which nets to this assignment. -/
def set_center (r : CatRow) (x y : ℚ) : CatRow := { r with ra := x, dec := y }

/-- Embedding of `basic_sampling_function`: one guaranteed bright galaxy is
stacked on top of the sampled ones, and the shift arrays `dx`, `dy` are
written into the `ra` and `dec` columns.  The draw `number_of_objects` of
`np.random.randint(0, Args.max_number)` appears as `picks.length`. -/
def basic_sampling_function (catalog : List CatRow) (deep : Bool)
    (bright_pick : Nat) (picks : List Nat) (dx dy : List ℚ) : List CatRow :=
  let chosen := (q_bright catalog).getD bright_pick default
      :: picks.map fun k => (q_sample catalog deep).getD k default
  (chosen.zip (dx.zip dy)).map fun p => set_center p.1 p.2.1 p.2.2

/-! ### Group sampling function (`btk/utils.py`, `group_sampling_function`) -/

/-- One row of the pre-run WLD catalog, restricted to the columns the code
reads (`grp_id`, `grp_size`, `db_id`). -/
structure WldRow where
  grp_id : Nat
  grp_size : Nat
  db_id : Nat
  deriving DecidableEq, Repr

/-- Group identifiers of groups with at least two members:
`np.unique(wld_catalog['grp_id'][wld_catalog['grp_size'] >= 2])`.
`np.unique` also sorts; only which ids occur matters downstream, since the
group to use is drawn from this list by `np.random.choice`, modelled as an
arbitrary index into it. -/
def wld_group_ids (wld : List WldRow) : List Nat :=
  ((wld.filter fun r => 2 ≤ r.grp_size).map WldRow.grp_id).dedup

/-- Member ids of one group:
`wld_catalog['db_id'][wld_catalog['grp_id'] == group_id]`. -/
def group_member_ids (wld : List WldRow) (gid : Nat) : List Nat :=
  (wld.filter fun r => r.grp_id == gid).map WldRow.db_id

/-- The stacked blend catalog
`astropy.table.vstack([catalog[catalog['galtileid'] == i] for i in ids])`. -/
def group_blend_rows (catalog : List CatRow) (ids : List Nat) : List CatRow :=
  (ids.map fun i => catalog.filter fun r => r.galtileid == i).flatten

/-- Recentering step of `group_sampling_function`: subtract the group mean
from `ra` and `dec`, convert degrees to arcseconds, and add the small random
shift (`dx`, `dy` are the two components of
`get_random_center_shift(Args, 1, maxshift=3 * Args.pixel_scale)`). -/
def recenter_group (blend : List CatRow) (dx dy : ℚ) : List CatRow :=
  let mean_ra := (blend.map CatRow.ra).sum / blend.length
  let mean_dec := (blend.map CatRow.dec).sum / blend.length
  blend.map fun r =>
    { r with ra := (r.ra - mean_ra) * 3600 + dx,
             dec := (r.dec - mean_dec) * 3600 + dy }

/-- Boundary cut keeping galaxy centers away from the stamp edge:
`np.abs(ra) < stamp_size / 2 - 3` and likewise for `dec`. -/
def stamp_margin_ok (args : SimArgs) (r : CatRow) : Bool :=
  decide (|r.ra| < args.stamp_size / 2 - 3) &&
    decide (|r.dec| < args.stamp_size / 2 - 3)

/-- The `no_boundary` table of `group_sampling_function`: the chosen group,
recentered, with rows too close to the stamp edge removed.  `group_pick`
models the `np.random.choice(group_ids)` draw as an index into the id
list. -/
def group_no_boundary (args : SimArgs) (wld : List WldRow) (catalog : List CatRow)
    (group_pick : Nat) (dx dy : ℚ) : List CatRow :=
  let gid := (wld_group_ids wld).getD group_pick 0
  let blend := group_blend_rows catalog (group_member_ids wld gid)
  (recenter_group blend dx dy).filter (stamp_margin_ok args)

/-- Pure part of `group_sampling_function` (after the WLD catalog has been
read): returns `no_boundary` reduced to the draw
`np.random.choice(range(len(no_boundary)), num, replace=False)`, modelled by
the index list `sel`; the early return on an empty `no_boundary` is kept. -/
def group_sampling_function (args : SimArgs) (wld : List WldRow) (catalog : List CatRow)
    (group_pick : Nat) (dx dy : ℚ) (sel : List Nat) : List CatRow :=
  let no_boundary := group_no_boundary args wld catalog group_pick dx dy
  if no_boundary = [] then []
  else sel.map fun k => no_boundary.getD k default

/-- Arguments of `group_sampling_function`; `wld_catalog_name = none` models
an `Args` object on which `hasattr(Args, 'wld_catalog_name')` is false. -/
structure GroupArgs extends SimArgs where
  wld_catalog_name : Option String
  deriving Repr

/-- Embedding of `group_sampling_function` including its failure points.
`read_wld` is the oracle for `astropy.table.Table.read(..., format='fits')`.
After the explicit `hasattr` check, one library call can still raise: the
draw `np.random.choice(group_ids)` fails on an empty id array.  The later
`astropy.table.vstack` cannot fail: the comprehension hands it one
(possibly zero-row) table per member id and the id list is nonempty once a
group id was drawn, so when no catalog row matches, the zero-row blend
flows through the recentering (whose `np.mean` only warns) into the empty
`no_boundary` early return. -/
def group_sampling_checked (args : GroupArgs) (read_wld : String → List WldRow)
    (catalog : List CatRow) (group_pick : Nat) (dx dy : ℚ) (sel : List Nat) :
    Except String (List CatRow) :=
  match args.wld_catalog_name with
  | none => .error "A pre-run WLD catalog name should be input as Args.wld_catalog_name"
  | some name =>
    let wld := read_wld name
    if wld_group_ids wld = [] then
      .error "np.random.choice called on an empty group id array"
    else
      .ok (group_sampling_function args.toSimArgs wld catalog group_pick dx dy sel)

/-! ### Rendering generator (`btk/draw_blends.py` via `tests/test_draw.py`)

Modelled from the spec: `btk/draw_blends.py`, the observation/rendering
generator exercised by `test_multi_processing`, is not part of the source
snapshot (only its test is).  The spec describes it as turning blend catalogs
into pixel arrays "optionally in parallel worker processes", "an optional
parallel map over a library-provided process pool for image rendering".  A
pool map distributes the batch over workers in contiguous chunks and
reassembles the per-item results in batch order; the render function itself
is an arbitrary deterministic function of a blend (the seed and simulation
parameters are fixed inside it). -/

/-- Split a list into contiguous chunks of `n + 1` elements (every positive
chunk size arises as some `n + 1`, and a process pool never uses chunk size
zero). -/
def chunk (n : Nat) : List α → List (List α)
  | [] => []
  | x :: xs => (x :: xs.take n) :: chunk n (xs.drop n)
termination_by l => l.length
decreasing_by simp [List.length_drop]; omega

/-- Modelled from the spec: the process-pool map used for image rendering.
Each worker maps `render` over its chunk; the pool concatenates the chunk
results in submission order. -/
def pool_map (render : α → β) (n : Nat) (batch : List α) : List β :=
  ((chunk n batch).map (List.map render)).flatten

/-- Modelled from the spec: one batch of the rendering generator, which maps
`render` over the blend catalogs of the batch, serially or through the
process pool according to the `multiprocessing` flag.  `render` returns the
pixel data of one blend (its `blend_images` and `isolated_images` slices). -/
def draw_batch (multiprocessing : Bool) (cpus : Nat) (render : α → β)
    (batch : List α) : List β :=
  if multiprocessing then pool_map render cpus batch else batch.map render

/-! ### Catalog loader (`btk/get_input_catalog.py`, `load_catalog`) -/

/-- Table formats `load_catalog` can request from `astropy.table.Table.read`. -/
inductive TableFormat where
  | fits
  | ascii_basic
  deriving DecidableEq, Repr

/-- Arguments of `load_catalog` (the `verbose` flag only controls printing,
which has no observable effect on the returned table). -/
structure LoadArgs where
  catalog_name : String
  verbose : Bool
  deriving Repr

/-- Index of the last occurrence of `c`, if any. -/
def lastIndexOf (c : Char) : List Char → Option Nat
  | [] => none
  | x :: xs =>
    match lastIndexOf c xs with
    | some k => some (k + 1)
    | none => if x = c then some 0 else none

/-- Embedding of `os.path.splitext` (posix rules, as used on
`Args.catalog_name`): split at the last dot of the final path component,
unless every character between the component start and that dot is itself a
dot (so dotfiles such as `.bashrc` have no extension). -/
def splitext (p : String) : String × String :=
  let cs := p.data
  let sepIdx : Int := match lastIndexOf '/' cs with | some k => (k : Int) | none => -1
  match lastIndexOf '.' cs with
  | none => (p, "")
  | some dotIdx =>
    if sepIdx < (dotIdx : Int) then
      let start := (sepIdx + 1).toNat
      if ((cs.drop start).take (dotIdx - start)).all (· = '.') then (p, "")
      else (⟨cs.take dotIdx⟩, ⟨cs.drop dotIdx⟩)
    else (p, "")

/-- Embedding of `load_catalog`.  `read` is the oracle for
`astropy.table.Table.read`; `selection_function = none` models calling
`load_catalog(Args)` without the optional argument (a supplied function
object is always truthy in Python, so `if selection_function:` reduces to
this `Option` match). -/
def load_catalog {Table : Type} (read : TableFormat → String → Table)
    (args : LoadArgs) (selection_function : Option (Table → Table)) : Table :=
  let ext := (splitext args.catalog_name).2
  let table :=
    if ext = ".fits" then read .fits args.catalog_name
    else read .ascii_basic args.catalog_name
  match selection_function with
  | some f => f table
  | none => table

/-- The format `load_catalog` requests for a given catalog name. -/
def chosen_format (name : String) : TableFormat :=
  if (splitext name).2 = ".fits" then .fits else .ascii_basic

/-! ### Measurement adapter classes (`btk/utils.py`)

The uniform-contract claim is about which methods each adapter class
exposes, so the embedding records, per class, the list of method names its
`class` block defines (read off the `def` lines of `btk/utils.py`). -/

def SEP_params_defined_methods : List String :=
  ["get_centers", "get_deblended_images"]

def Stack_params_defined_methods : List String :=
  ["get_psf_sky", "make_measurement", "get_deblended_images"]

def Scarlet_params_defined_methods : List String :=
  ["make_measurement", "get_centers", "scarlet_initialize", "get_deblended_images"]

def Basic_measure_params_defined_methods : List String :=
  ["get_centers", "get_deblended_images"]

/-- Modelled from the spec: `btk/measure.py`, defining the base class
`measure.Measurement_params` that all four adapters extend, is not part of
the source snapshot.  The spec describes the adapters as wrapping external
libraries "behind a uniform two-method contract (`get_centers`,
`get_deblended_images`/`make_measurement`)"; the base class supplies the two
dispatch methods the pipeline calls on every adapter, namely
`make_measurement` and `get_deblended_images` (both defaulting to `None`),
which is also what `Stack_params` and `Scarlet_params` visibly override. -/
def Measurement_params_methods : List String :=
  ["make_measurement", "get_deblended_images"]

/-- A class exposes a method if its own block defines it or it inherits it
from `Measurement_params`. -/
def exposes (defined : List String) (m : String) : Prop :=
  m ∈ defined ∨ m ∈ Measurement_params_methods

instance (defined : List String) (m : String) : Decidable (exposes defined m) :=
  inferInstanceAs (Decidable (_ ∨ _))

/-- The four adapter classes of `btk/utils.py`, by their defined methods. -/
def adapter_method_lists : List (List String) :=
  [SEP_params_defined_methods, Stack_params_defined_methods,
    Scarlet_params_defined_methods, Basic_measure_params_defined_methods]

/-! ### Theorems -/

/-- C8: for every `num >= 0` and summary table, `get_detection_eff_matrix`
returns a matrix of shape `(num + 2, num + 1)`: `num + 2` rows indexed by
detected counts `0 .. num + 1`, each of `num + 1` entries indexed by true
counts `0 .. num` (the docstring's advertised `num - 1` columns is wrong). -/
theorem detection_eff_matrix_shape (t : List SummaryRow) (num : Nat) :
    (get_detection_eff_matrix t num).length = num + 2
    ∧ ∀ row ∈ get_detection_eff_matrix t num, row.length = num + 1 := by
  refine ⟨by simp [get_detection_eff_matrix], ?_⟩
  intro row hrow
  simp only [get_detection_eff_matrix, List.mem_map] at hrow
  obtain ⟨j, _, rfl⟩ := hrow
  simp

/-- C10: every row kept by `basic_selection_function` satisfies the size and
magnitude cuts (`r_sec <= 4`, stated on squares, and `i_ab <= 27`), and the
function is idempotent: filtering its own output changes nothing. -/
theorem basic_selection_cut_idempotent (catalog : List CatRow) :
    (∀ r ∈ basic_selection_function catalog, r_sec_sq r ≤ 16 ∧ r.i_ab ≤ 27)
    ∧ basic_selection_function (basic_selection_function catalog)
        = basic_selection_function catalog := by
  constructor
  · intro r hr
    have hk := List.of_mem_filter hr
    simpa [selection_keep] using hk
  · simp [basic_selection_function, List.filter_filter]

/-- C3: `load_catalog` reads the table named by `Args.catalog_name`, in FITS
format exactly when the filename extension is `.fits` and in `ascii.basic`
format otherwise; without a selection function the table is returned exactly
as read, and with one the result is the selection function applied to that
table and nothing else. -/
theorem load_catalog_spec {Table : Type} (read : TableFormat → String → Table)
    (args : LoadArgs) :
    load_catalog read args none
        = read (chosen_format args.catalog_name) args.catalog_name
    ∧ ∀ f : Table → Table,
        load_catalog read args (some f)
          = f (read (chosen_format args.catalog_name) args.catalog_name) := by
  unfold load_catalog chosen_format
  by_cases h : (splitext args.catalog_name).2 = ".fits" <;> simp [h]

/-- C2 fails as stated: `Stack_params` defines no `get_centers` method (its
detected centroids are instead read off the measurement catalog by
`Stack_metric_params.get_detections`), and the base class only supplies
`make_measurement` and `get_deblended_images`. -/
theorem adapters_contract_counterexample :
    ¬ exposes Stack_params_defined_methods "get_centers" := by decide

/-- C2 amended: `SEP_params`, `Scarlet_params` and `Basic_measure_params`
each expose `get_centers`, and all four adapter classes expose
`get_deblended_images` or `make_measurement`; `Stack_params` alone exposes
the measurement half of the contract without `get_centers`. -/
theorem adapters_contract :
    (∀ cls ∈ [SEP_params_defined_methods, Scarlet_params_defined_methods,
        Basic_measure_params_defined_methods], exposes cls "get_centers")
    ∧ (∀ cls ∈ adapter_method_lists,
        exposes cls "get_deblended_images" ∨ exposes cls "make_measurement")
    ∧ ¬ exposes Stack_params_defined_methods "get_centers" := by decide

/-- Concatenating the chunks of a pool map recovers the batch. -/
theorem chunk_flatten (n : Nat) : (xs : List α) → (chunk n xs).flatten = xs
  | [] => by simp [chunk]
  | x :: xs => by
    rw [chunk, List.flatten_cons, chunk_flatten n (xs.drop n)]
    simp
termination_by xs => xs.length
decreasing_by simp [List.length_drop]; omega

/-- C4: one batch drawn with multiprocessing enabled equals, element for
element, the batch drawn serially, for every worker count, every render
function (hence every fixed seed and simulation parameters) and every
batch of blends. -/
theorem draw_batch_multiprocessing_eq {α β : Type} (cpus : Nat)
    (render : α → β) (batch : List α) :
    draw_batch true cpus render batch = draw_batch false cpus render batch := by
  have h : pool_map render cpus batch = batch.map render := by
    rw [pool_map, ← List.map_flatten, chunk_flatten]
  simp [draw_batch, h]

/-- Unfolding one summary row out of `countTrueDet`. -/
theorem countTrueDet_cons (r : SummaryRow) (t : List SummaryRow) (i j : Nat) :
    countTrueDet (r :: t) i j
      = (if r.1 = i ∧ r.2 = j then 1 else 0) + countTrueDet t i j := by
  simp only [countTrueDet, List.filter_cons]
  by_cases h : r.1 = i ∧ r.2 = j
  · simp [h]
    omega
  · have hb : (r.1 == i && r.2 == j) = false := by
      rcases not_and_or.mp h with h1 | h1 <;> simp [h1]
    simp [hb, h]

/-- Summing the per-detected-count tallies of column `i` over `j < m` counts
the rows with true count `i` and detected count below `m`. -/
theorem sum_range_countTrueDet (t : List SummaryRow) (i m : Nat) :
    ∑ j ∈ Finset.range m, countTrueDet t i j
      = (t.filter fun r => r.1 == i && decide (r.2 < m)).length := by
  induction t with
  | nil => simp [countTrueDet]
  | cons r t ih =>
    have hsplit : ∀ j, (if r.1 = i ∧ r.2 = j then 1 else 0)
        = if r.2 = j then (if r.1 = i then 1 else 0) else 0 := by
      intro j
      by_cases h1 : r.1 = i <;> by_cases h2 : r.2 = j <;> simp [h1, h2]
    simp only [countTrueDet_cons, Finset.sum_add_distrib, ih, hsplit]
    rw [Finset.sum_ite_eq (Finset.range m) r.2 fun _ => if r.1 = i then 1 else 0]
    rw [List.filter_cons]
    by_cases h1 : r.1 = i <;> by_cases h2 : r.2 < m <;>
      first
      | (simp [h1, h2, Finset.mem_range]; omega)
      | simp [h1, h2, Finset.mem_range]

/-- Rows with true count `i` and detected count `j` on the matrix are among
the rows counted by `countTrueDetLe`. -/
theorem countTrueDet_le (t : List SummaryRow) (num i j : Nat) (hj : j < num + 2) :
    countTrueDet t i j ≤ countTrueDetLe t num i := by
  rw [countTrueDet, countTrueDetLe, ← List.countP_eq_length_filter,
    ← List.countP_eq_length_filter]
  apply List.countP_mono_left
  intro r _ h
  simp only [Bool.and_eq_true, beq_iff_eq, decide_eq_true_eq] at h ⊢
  omega

/-- Rows counted by `countTrueDetLe` are among the rows with true count `i`. -/
theorem countTrueDetLe_le (t : List SummaryRow) (num i : Nat) :
    countTrueDetLe t num i ≤ countTrue t i := by
  rw [countTrue, countTrueDetLe, ← List.countP_eq_length_filter,
    ← List.countP_eq_length_filter]
  apply List.countP_mono_left
  intro r _ h
  simp only [Bool.and_eq_true] at h
  exact h.1

/-- The column sum of the unnormalized matrix counts the rows with true
count `i` whose detected count fits on the matrix. -/
theorem colSum_eq (t : List SummaryRow) (num i : Nat) :
    colSum t num i = (countTrueDetLe t num i : ℚ) := by
  by_cases h : 0 < countTrue t i
  · simp only [colSum, rawEff, if_pos h]
    rw [← Nat.cast_sum, sum_range_countTrueDet]
    rfl
  · have h0 : countTrueDetLe t num i = 0 := by
      have := countTrueDetLe_le t num i
      omega
    simp [colSum, rawEff, h, h0]

/-- Entry `[j, i]` of the returned matrix, for indices on the matrix. -/
theorem matrix_entry_eq (t : List SummaryRow) (num j i : Nat)
    (hj : j < num + 2) (hi : i < num + 1) :
    ((get_detection_eff_matrix t num).getD j []).getD i 0 = effEntry t num j i := by
  unfold get_detection_eff_matrix
  simp [List.getD_eq_getElem?_getD, List.getElem?_map, List.getElem?_range, hj, hi]

/-- The normalized entry in closed form: zero when no row with true count
`i` has a detected count on the matrix, and otherwise 100 times the share of
such rows that have detected count `j`. -/
theorem effEntry_closed (t : List SummaryRow) (num j i : Nat) (hj : j < num + 2) :
    effEntry t num j i
      = if countTrueDetLe t num i = 0 then 0
        else 100 * (countTrueDet t i j : ℚ) / (countTrueDetLe t num i : ℚ) := by
  by_cases h0 : countTrueDetLe t num i = 0
  · have hdet : countTrueDet t i j = 0 := by
      have := countTrueDet_le t num i j hj
      omega
    simp only [effEntry, rawEff, hdet, h0, if_pos, Nat.cast_zero]
    split <;> simp
  · have hpos : 0 < countTrue t i := by
      have h1 := countTrueDetLe_le t num i
      omega
    have hne : (countTrueDetLe t num i : ℚ) ≠ 0 := by
      exact_mod_cast h0
    simp only [effEntry, rawEff, if_pos hpos, colNorm, colSum_eq, if_neg h0,
      if_neg (by exact_mod_cast h0 : ¬((countTrueDetLe t num i : ℚ) = 0))]
    ring

/-- C1 (amended): for `num >= 1` and any summary table, entry `[j, i]` of
the returned matrix is 100 times the number of rows with true count `i` and
detected count `j` divided by the number of rows with true count `i` *whose
detected count is at most `num + 1`* (the original claim divided by all rows
with true count `i`, which fails when some detected count overflows the
matrix), and is 0 for every `j` when no such row exists; consequently every
column sums exactly to 100 or is all zeros. -/
theorem detection_eff_matrix_entries (t : List SummaryRow) (num : Nat)
    (_hnum : 1 ≤ num) :
    (∀ i ≤ num, ∀ j ≤ num + 1,
        ((get_detection_eff_matrix t num).getD j []).getD i 0
          = if countTrueDetLe t num i = 0 then 0
            else 100 * (countTrueDet t i j : ℚ) / (countTrueDetLe t num i : ℚ))
    ∧ (∀ i ≤ num,
        (∑ j ∈ Finset.range (num + 2),
            ((get_detection_eff_matrix t num).getD j []).getD i 0) = 100
          ∨ ∀ j ≤ num + 1,
              ((get_detection_eff_matrix t num).getD j []).getD i 0 = 0) := by
  refine ⟨?_, ?_⟩
  · intro i hi j hj
    rw [matrix_entry_eq t num j i (by omega) (by omega),
      effEntry_closed t num j i (by omega)]
  · intro i hi
    by_cases h0 : countTrueDetLe t num i = 0
    · right
      intro j hj
      rw [matrix_entry_eq t num j i (by omega) (by omega),
        effEntry_closed t num j i (by omega), if_pos h0]
    · left
      have hsum : ∀ j ∈ Finset.range (num + 2),
          ((get_detection_eff_matrix t num).getD j []).getD i 0
            = rawEff t i j * (100 / colNorm t num i) := by
        intro j hj
        rw [matrix_entry_eq t num j i (Finset.mem_range.mp hj) (by omega), effEntry]
        ring
      rw [Finset.sum_congr rfl hsum, ← Finset.sum_mul]
      have hdef : (∑ j ∈ Finset.range (num + 2), rawEff t i j) = colSum t num i := rfl
      have hcs : colSum t num i ≠ 0 := by
        rw [colSum_eq]
        exact_mod_cast h0
      rw [hdef, colNorm, if_neg hcs]
      field_simp

/-- Witness for `detection_eff_matrix_entries`: on the table with two rows of
one true object, detected 0 resp. 1 times, the entry for one true object and
zero detections is 50%. -/
theorem detection_eff_matrix_entries_witness :
    ((get_detection_eff_matrix [(1, 0), (1, 1)] 1).getD 0 []).getD 1 0 = 50 := by
  have h := (detection_eff_matrix_entries [(1, 0), (1, 1)] 1 (by decide)).1
    1 (by decide) 0 (by decide)
  have h1 : countTrueDetLe [(1, 0), (1, 1)] 1 1 = 2 := by decide
  have h2 : countTrueDet [(1, 0), (1, 1)] 1 0 = 1 := by decide
  rw [h, h1, h2]
  norm_num

/-- C1 fails as stated: with `num = 1` and summary rows `(1, 0)` and
`(1, 5)`, the second row's detected count 5 lies outside the matrix, so the
code normalizes column 1 by 1 (the on-matrix rows) and returns 100 at
`[0, 1]`, while the claimed formula `100 * count / rows-with-true-count-1`
gives 50. -/
theorem detection_eff_matrix_counterexample :
    ((get_detection_eff_matrix [(1, 0), (1, 5)] 1).getD 0 []).getD 1 0 = 100
    ∧ 100 * (countTrueDet [(1, 0), (1, 5)] 1 0 : ℚ)
        / (countTrue [(1, 0), (1, 5)] 1 : ℚ) = 50 := by
  have h1 : countTrueDetLe [(1, 0), (1, 5)] 1 1 = 1 := by decide
  have h2 : countTrueDet [(1, 0), (1, 5)] 1 0 = 1 := by decide
  have h3 : countTrue [(1, 0), (1, 5)] 1 = 2 := by decide
  constructor
  · rw [matrix_entry_eq _ _ _ _ (by omega) (by omega),
      effEntry_closed _ _ _ _ (by omega), h1, h2]
    norm_num
  · rw [h2, h3]
    norm_num

/-- Reading a list at a valid index ignores the default. -/
theorem getD_eq_get {α : Type} (l : List α) (d : α) (n : Nat) (h : n < l.length) :
    l.getD n d = l[n] := by
  rw [List.getD_eq_getElem?_getD, List.getElem?_eq_getElem h, Option.getD_some]

/-- Reading a list at a valid index yields one of its members. -/
theorem getD_mem {α : Type} (l : List α) (d : α) (n : Nat) (h : n < l.length) :
    l.getD n d ∈ l := by
  rw [getD_eq_get l d n h]
  exact List.getElem_mem h

/-- C5: with valid random draws (`picks.length` is the
`np.random.randint(0, max_number)` draw, the choice indices point into
their source tables, and the shift arrays have one entry per selected row),
`basic_sampling_function` returns between 1 and `max_number` rows; every row
is an input-catalog row with only its `ra` and `dec` columns rewritten; at
least one returned row has `i_ab <= 24`; and row `i` carries the offsets
`dx[i]`, `dy[i]` in its `ra` and `dec` columns. -/
theorem basic_sampling_spec (args : SimArgs) (catalog : List CatRow) (deep : Bool)
    (bright_pick : Nat) (picks : List Nat) (dx dy : List ℚ)
    (hmax : picks.length < args.max_number)
    (hbright : bright_pick < (q_bright catalog).length)
    (hpicks : ∀ k ∈ picks, k < (q_sample catalog deep).length)
    (hdx : dx.length = picks.length + 1) (hdy : dy.length = picks.length + 1) :
    (1 ≤ (basic_sampling_function catalog deep bright_pick picks dx dy).length
      ∧ (basic_sampling_function catalog deep bright_pick picks dx dy).length
          ≤ args.max_number)
    ∧ (∀ r ∈ basic_sampling_function catalog deep bright_pick picks dx dy,
        ∃ c ∈ catalog, r = set_center c r.ra r.dec)
    ∧ (∃ r ∈ basic_sampling_function catalog deep bright_pick picks dx dy,
        r.i_ab ≤ 24)
    ∧ (∀ i, (h : i < (basic_sampling_function catalog deep bright_pick picks
          dx dy).length) →
        ((basic_sampling_function catalog deep bright_pick picks dx dy).get
            ⟨i, h⟩).ra = dx.getD i 0
        ∧ ((basic_sampling_function catalog deep bright_pick picks dx dy).get
            ⟨i, h⟩).dec = dy.getD i 0) := by
  have hchosen : ((q_bright catalog).getD bright_pick default
      :: picks.map fun k => (q_sample catalog deep).getD k default).length
        = picks.length + 1 := by
    simp
  have hlen : (basic_sampling_function catalog deep bright_pick picks dx dy).length
      = picks.length + 1 := by
    simp only [basic_sampling_function, List.length_map, List.length_zip, hchosen,
      hdx, hdy]
    omega
  refine ⟨⟨by omega, by omega⟩, ?_, ?_, ?_⟩
  · intro r hr
    simp only [basic_sampling_function, List.mem_map] at hr
    obtain ⟨p, hp, rfl⟩ := hr
    have hp1 := (List.of_mem_zip hp).1
    have hcat : p.1 ∈ catalog := by
      rcases List.mem_cons.mp hp1 with h | h
      · rw [h]
        exact (List.mem_filter.mp (getD_mem _ _ _ hbright)).1
      · obtain ⟨k, hk, hke⟩ := List.mem_map.mp h
        rw [← hke]
        exact (List.mem_filter.mp (getD_mem _ _ _ (hpicks k hk))).1
    exact ⟨p.1, hcat, rfl⟩
  · obtain ⟨x, dxs, rfl⟩ : ∃ a l, dx = a :: l := by
      cases dx with
      | nil => simp at hdx
      | cons a l => exact ⟨a, l, rfl⟩
    obtain ⟨y, dys, rfl⟩ : ∃ a l, dy = a :: l := by
      cases dy with
      | nil => simp at hdy
      | cons a l => exact ⟨a, l, rfl⟩
    refine ⟨set_center ((q_bright catalog).getD bright_pick default) x y,
      List.mem_cons_self _ _, ?_⟩
    have hb : (q_bright catalog).getD bright_pick default ∈ q_bright catalog :=
      getD_mem _ _ _ hbright
    have := (List.mem_filter.mp hb).2
    simp only [Bool.and_eq_true, decide_eq_true_eq] at this
    exact this.2
  · intro i h
    have hi : i < picks.length + 1 := by omega
    have hb1 : i < ((q_bright catalog).getD bright_pick default
        :: picks.map fun k => (q_sample catalog deep).getD k default).length := by
      simp
      omega
    have hb2 : i < dx.length := by omega
    have hb3 : i < dy.length := by omega
    have hget : (basic_sampling_function catalog deep bright_pick picks dx dy).get
        ⟨i, h⟩
        = set_center (List.get _ ⟨i, hb1⟩) (dx.get ⟨i, hb2⟩) (dy.get ⟨i, hb3⟩) := by
      simp only [basic_sampling_function, List.get_eq_getElem, List.getElem_map,
        List.getElem_zip]
    rw [hget]
    constructor
    · rw [getD_eq_get dx 0 i hb2]
      rfl
    · rw [getD_eq_get dy 0 i hb3]
      rfl

/-- A bright, well-shaped sample galaxy used in the concrete witnesses. -/
def sample_bright_row : CatRow :=
  { galtileid := 7, ra := 0, dec := 0, i_ab := 20, a_d := 1, a_b := 1,
    fluxnorm_bulge := 1, fluxnorm_disk := 1 }

/-- Witness for `basic_sampling_spec` on a one-galaxy catalog, one extra
pick, and shift arrays `[1, 2]`, `[3, 4]`. -/
theorem basic_sampling_spec_witness :
    (1 ≤ (basic_sampling_function [sample_bright_row] false 0 [0]
          [1, 2] [3, 4]).length
      ∧ (basic_sampling_function [sample_bright_row] false 0 [0]
          [1, 2] [3, 4]).length ≤ (2 : Nat))
    ∧ (∀ r ∈ basic_sampling_function [sample_bright_row] false 0 [0]
          [1, 2] [3, 4],
        ∃ c ∈ [sample_bright_row], r = set_center c r.ra r.dec)
    ∧ (∃ r ∈ basic_sampling_function [sample_bright_row] false 0 [0]
          [1, 2] [3, 4], r.i_ab ≤ 24)
    ∧ (∀ i, (h : i < (basic_sampling_function [sample_bright_row] false 0 [0]
          [1, 2] [3, 4]).length) →
        ((basic_sampling_function [sample_bright_row] false 0 [0]
            [1, 2] [3, 4]).get ⟨i, h⟩).ra = [(1 : ℚ), 2].getD i 0
        ∧ ((basic_sampling_function [sample_bright_row] false 0 [0]
            [1, 2] [3, 4]).get ⟨i, h⟩).dec = [(3 : ℚ), 4].getD i 0) :=
  basic_sampling_spec ⟨2, 24, 1 / 5⟩ [sample_bright_row] false 0 [0]
    [(1 : ℚ), 2] [(3 : ℚ), 4]
    (by norm_num)
    (by norm_num [q_bright, basic_shape_cond, a_sq, sample_bright_row])
    (by
      intro k hk
      simp only [List.mem_singleton] at hk
      subst hk
      norm_num [q_sample, basic_shape_cond, a_sq, sample_bright_row])
    (by norm_num) (by norm_num)

/-- C7 fails as stated: `np.random.randint(0, max_number)` can validly draw
`number_of_objects = 0`, in which case the blend catalog contains exactly one
galaxy, not multiple overlapping ones (`test_draw.py` itself expects blends
of "2 or 1 galaxies" with the default `max_number = 2`). -/
theorem blend_multiple_rows_counterexample :
    (0 : Nat) < 2
    ∧ (basic_sampling_function [sample_bright_row] false 0 [] [1] [1]).length
        = 1 := by
  exact ⟨by norm_num, rfl⟩

/-- C7 amended: a blend catalog from `basic_sampling_function` always
contains at least one galaxy (the guaranteed bright pick), but may contain
exactly one, so a blend is not guaranteed to hold multiple galaxies. -/
theorem basic_sampling_at_least_one (catalog : List CatRow) (deep : Bool)
    (bright_pick : Nat) (picks : List Nat) (dx dy : List ℚ)
    (hdx : dx.length = picks.length + 1) (hdy : dy.length = picks.length + 1) :
    1 ≤ (basic_sampling_function catalog deep bright_pick picks dx dy).length := by
  simp only [basic_sampling_function, List.length_map, List.length_zip,
    List.length_cons, hdx, hdy]
  omega

/-- Witness for `basic_sampling_at_least_one` with no extra picks. -/
theorem basic_sampling_at_least_one_witness :
    1 ≤ (basic_sampling_function [sample_bright_row] false 0 [] [1] [1]).length :=
  basic_sampling_at_least_one [sample_bright_row] false 0 [] [1] [1] rfl rfl

/-- Reading every valid index in order reproduces the list. -/
theorem getD_range_map {α : Type} (xs : List α) (d : α) :
    (List.range xs.length).map (fun k => xs.getD k d) = xs := by
  induction xs with
  | nil => simp
  | cons x l ih =>
    have hcomp : ((fun k => (x :: l).getD k d) ∘ Nat.succ) = fun k => l.getD k d := by
      funext k
      simp
    rw [List.length_cons, List.range_succ_eq_map, List.map_cons, List.map_map,
      hcomp, ih]
    simp

/-- Mapping preserves the subpermutation relation. -/
theorem subperm_map {α β : Type} (f : α → β) {l₁ l₂ : List α}
    (h : List.Subperm l₁ l₂) : List.Subperm (l₁.map f) (l₂.map f) := by
  obtain ⟨l, hperm, hsub⟩ := h
  exact ⟨l.map f, hperm.map f, hsub.map f⟩

/-- Selection without replacement: reading a list at distinct valid indices
yields a permutation of one of its sublists. -/
theorem select_nodup_subperm {α : Type} (xs : List α) (d : α) (idxs : List Nat)
    (hnd : idxs.Nodup) (hvalid : ∀ k ∈ idxs, k < xs.length) :
    List.Subperm (idxs.map fun k => xs.getD k d) xs := by
  have hsub : idxs ⊆ List.range xs.length := fun k hk =>
    List.mem_range.mpr (hvalid k hk)
  have h1 : List.Subperm idxs (List.range xs.length) :=
    List.subperm_of_subset hnd hsub
  have h2 := subperm_map (fun k => xs.getD k d) h1
  rwa [getD_range_map] at h2

/-- C6: with the selection indices drawn without replacement (`sel` distinct,
in range, of size `min(len(no_boundary), max_number)`), the table returned by
`group_sampling_function` has at most `max_number` rows, is a
without-replacement selection (a subpermutation) of the boundary-passing
members of the one chosen group, every returned row lies strictly within the
stamp margin `stamp_size / 2 - 3` in both coordinates, and every returned row
is an input-catalog row of the chosen group with only `ra` and `dec`
rewritten. -/
theorem group_sampling_spec (args : SimArgs) (wld : List WldRow)
    (catalog : List CatRow) (group_pick : Nat) (dx dy : ℚ) (sel : List Nat)
    (hnd : sel.Nodup)
    (hvalid : ∀ k ∈ sel,
        k < (group_no_boundary args wld catalog group_pick dx dy).length)
    (hlen : sel.length
        = min (group_no_boundary args wld catalog group_pick dx dy).length
            args.max_number) :
    (group_sampling_function args wld catalog group_pick dx dy sel).length
        ≤ args.max_number
    ∧ List.Subperm (group_sampling_function args wld catalog group_pick dx dy sel)
        (group_no_boundary args wld catalog group_pick dx dy)
    ∧ (∀ r ∈ group_sampling_function args wld catalog group_pick dx dy sel,
        |r.ra| < args.stamp_size / 2 - 3 ∧ |r.dec| < args.stamp_size / 2 - 3)
    ∧ (∀ r ∈ group_sampling_function args wld catalog group_pick dx dy sel,
        ∃ c ∈ catalog,
          c.galtileid
              ∈ group_member_ids wld ((wld_group_ids wld).getD group_pick 0)
          ∧ r = set_center c r.ra r.dec) := by
  by_cases hempty :
      group_no_boundary args wld catalog group_pick dx dy = []
  · have hout : group_sampling_function args wld catalog group_pick dx dy sel
        = [] := by
      simp [group_sampling_function, hempty]
    rw [hout]
    exact ⟨Nat.zero_le _, List.nil_subperm, by simp, by simp⟩
  · have hout : group_sampling_function args wld catalog group_pick dx dy sel
        = sel.map fun k =>
            (group_no_boundary args wld catalog group_pick dx dy).getD k
              default := by
      simp [group_sampling_function, hempty]
    have hmem_nb : ∀ r ∈ group_sampling_function args wld catalog group_pick
        dx dy sel, r ∈ group_no_boundary args wld catalog group_pick dx dy := by
      intro r hr
      rw [hout] at hr
      obtain ⟨k, hk, hke⟩ := List.mem_map.mp hr
      rw [← hke]
      exact getD_mem _ _ _ (hvalid k hk)
    refine ⟨?_, ?_, ?_, ?_⟩
    · rw [hout, List.length_map, hlen]
      omega
    · rw [hout]
      exact select_nodup_subperm _ _ sel hnd hvalid
    · intro r hr
      have hnb := hmem_nb r hr
      have hok := (List.mem_filter.mp hnb).2
      simpa [stamp_margin_ok] using hok
    · intro r hr
      have hnb := hmem_nb r hr
      have hrec := (List.mem_filter.mp hnb).1
      simp only [recenter_group, List.mem_map] at hrec
      obtain ⟨c, hc, hce⟩ := hrec
      have hcat := List.mem_flatten.mp hc
      obtain ⟨part, hpart, hcpart⟩ := hcat
      obtain ⟨i, hi, hie⟩ := List.mem_map.mp hpart
      rw [← hie] at hcpart
      have hcmem := List.mem_filter.mp hcpart
      have hgid : c.galtileid = i := by
        have := hcmem.2
        simpa using this
      refine ⟨c, hcmem.1, ?_, ?_⟩
      · rw [hgid]
        exact hi
      · rw [← hce]
        rfl

/-- A two-member WLD group (ids 10 and 11), used by concrete witnesses. -/
def wld_sample : List WldRow := [⟨1, 2, 10⟩, ⟨1, 2, 11⟩]

/-- First member of the sample group. -/
def cat10 : CatRow :=
  { galtileid := 10, ra := 0, dec := 0, i_ab := 21, a_d := 1, a_b := 1,
    fluxnorm_bulge := 1, fluxnorm_disk := 1 }

/-- Second member of the sample group. -/
def cat11 : CatRow :=
  { galtileid := 11, ra := 0, dec := 0, i_ab := 22, a_d := 1, a_b := 1,
    fluxnorm_bulge := 1, fluxnorm_disk := 1 }

/-- Witness for `group_sampling_spec` on a two-galaxy group lying fully
inside the stamp. -/
theorem group_sampling_spec_witness :
    (group_sampling_function ⟨2, 24, 1 / 5⟩ wld_sample [cat10, cat11] 0 0 0
        [0, 1]).length ≤ (2 : Nat)
    ∧ List.Subperm
        (group_sampling_function ⟨2, 24, 1 / 5⟩ wld_sample [cat10, cat11] 0 0 0
          [0, 1])
        (group_no_boundary ⟨2, 24, 1 / 5⟩ wld_sample [cat10, cat11] 0 0 0)
    ∧ (∀ r ∈ group_sampling_function ⟨2, 24, 1 / 5⟩ wld_sample [cat10, cat11]
          0 0 0 [0, 1],
        |r.ra| < (24 : ℚ) / 2 - 3 ∧ |r.dec| < (24 : ℚ) / 2 - 3)
    ∧ (∀ r ∈ group_sampling_function ⟨2, 24, 1 / 5⟩ wld_sample [cat10, cat11]
          0 0 0 [0, 1],
        ∃ c ∈ [cat10, cat11],
          c.galtileid
              ∈ group_member_ids wld_sample ((wld_group_ids wld_sample).getD 0 0)
          ∧ r = set_center c r.ra r.dec) := by
  have hnb : group_no_boundary ⟨2, 24, 1 / 5⟩ wld_sample [cat10, cat11] 0 0 0
      = [cat10, cat11] := by
    norm_num [group_no_boundary, wld_group_ids, group_member_ids,
      group_blend_rows, recenter_group, stamp_margin_ok, wld_sample, cat10,
      cat11, List.dedup]
  exact group_sampling_spec ⟨2, 24, 1 / 5⟩ wld_sample [cat10, cat11] 0 0 0
    [0, 1]
    (by decide)
    (by
      intro k hk
      rw [hnb]
      simp at hk ⊢
      omega)
    (by
      rw [hnb]
      simp)

/-- C9 fails as stated: an `Args` object that does carry `wld_catalog_name`
can still raise even though the file and its columns exist, namely when the
WLD catalog has no group of size at least 2, so that `np.random.choice` is
called on an empty group id array. -/
theorem group_sampling_error_counterexample :
    GroupArgs.wld_catalog_name ⟨⟨2, 24, 1 / 5⟩, some "wld_catalog.fits"⟩ ≠ none
    ∧ (group_sampling_checked ⟨⟨2, 24, 1 / 5⟩, some "wld_catalog.fits"⟩
        (fun _ => [⟨1, 1, 5⟩]) [] 0 0 0 []).isOk = false := by
  exact ⟨by simp, rfl⟩

/-- C9 (amended): `group_sampling_function` raises if the `Args` lacks
`wld_catalog_name`, but the claimed equivalence fails in the other
direction: with the attribute present (and the file and its columns intact)
it still raises when the WLD catalog has no group of size at least 2, since
`np.random.choice` is then called on an empty id array.  In every other
case it succeeds; in particular, when no catalog row matches the group ids
or when every group member fails the stamp-boundary cut, it returns an
empty table rather than failing. -/
theorem group_sampling_error_spec (args : GroupArgs)
    (read_wld : String → List WldRow) (catalog : List CatRow)
    (group_pick : Nat) (dx dy : ℚ) (sel : List Nat) :
    ((group_sampling_checked args read_wld catalog group_pick dx dy sel).isOk
        = true
      ↔ ∃ name, args.wld_catalog_name = some name
          ∧ wld_group_ids (read_wld name) ≠ [])
    ∧ (∀ name, args.wld_catalog_name = some name →
        wld_group_ids (read_wld name) ≠ [] →
        group_no_boundary args.toSimArgs (read_wld name) catalog group_pick
            dx dy = [] →
        group_sampling_checked args read_wld catalog group_pick dx dy sel
          = .ok []) := by
  constructor
  · cases hn : args.wld_catalog_name with
    | none => simp [group_sampling_checked, hn, Except.isOk, Except.toBool]
    | some name =>
      by_cases h1 : wld_group_ids (read_wld name) = []
      · simp [group_sampling_checked, hn, h1, Except.isOk, Except.toBool]
      · simp [group_sampling_checked, hn, h1, Except.isOk, Except.toBool]
  · intro name hname h1 hnb
    simp [group_sampling_checked, hname, h1, group_sampling_function, hnb]
